import Mathlib

/-!
Verification of the two counter primitives of the metrics library
(src/counter.go and src/floatcounter.go), embedded shallowly.

Modelling conventions:
* Go `uint64` is `Nat` together with reduction modulo `2 ^ 64` wherever the
  Go code performs wrapping arithmetic; Go `int64` (and platform `int`,
  which is 64-bit) is `Int`.
* Every operation that reads the wall clock (`time.Now().Unix()`) takes the
  clock reading as an explicit `Int` parameter `t`.
* Go `float64` values are modelled by `ℚ`: every property proved about the
  FloatCounter depends only on storing, loading and timestamping, never on
  rounding of float arithmetic, and the concrete value 3.5 used below is
  exactly representable in binary64.
* Each method of the Go code touches the shared fields through a single
  atomic instruction or a single critical section, so a concurrent execution
  is modelled by a sequence of whole operations (an interleaving), and an
  interleaving of per-thread call sequences is a permutation of their
  concatenation.
-/

namespace Metrics

/-- `2 ^ 64`, the modulus of Go `uint64` arithmetic. -/
def U64 : Nat := 2 ^ 64

theorem U64_eq : U64 = 18446744073709551616 := by norm_num [U64]

/-- Go conversion `uint64(n)` of a signed 64-bit value `n`:
two's-complement reinterpretation, i.e. `n` reduced modulo `2 ^ 64`. -/
def uint64OfInt (n : Int) : Nat := (n % (U64 : Int)).toNat

/-- State of `Counter` (src/counter.go:27-30): field `n : uint64` and field
`lastWriteTime : int64`. -/
structure Counter where
  n : Nat
  lastWriteTime : Int

/-- `Counter.Inc` (src/counter.go:33-35): `atomic.AddUint64(&c.n, 1)`;
the timestamp field is not touched. -/
def Counter.Inc (c : Counter) : Counter :=
  ⟨(c.n + 1) % U64, c.lastWriteTime⟩

/-- `Counter.Dec` (src/counter.go:38-41): `atomic.AddUint64(&c.n, ^uint64(0))`
(the bitwise complement of 0 is `2 ^ 64 - 1`, the two's-complement of 1),
then `atomic.StoreInt64(&c.lastWriteTime, time.Now().Unix())`. -/
def Counter.Dec (c : Counter) (t : Int) : Counter :=
  ⟨(c.n + (U64 - 1)) % U64, t⟩

/-- `Counter.Add` (src/counter.go:44-47): `atomic.AddUint64(&c.n, uint64(n))`
for `n : int` (64-bit platform), then the timestamp store. -/
def Counter.Add (c : Counter) (n : Int) (t : Int) : Counter :=
  ⟨(c.n + uint64OfInt n) % U64, t⟩

/-- `Counter.AddInt64` (src/counter.go:50-53): `atomic.AddUint64(&c.n, uint64(n))`
for `n : int64`, then the timestamp store. -/
def Counter.AddInt64 (c : Counter) (n : Int) (t : Int) : Counter :=
  ⟨(c.n + uint64OfInt n) % U64, t⟩

/-- `Counter.Get` (src/counter.go:56-58): `return atomic.LoadUint64(&c.n)`;
a pure load, no store of any field. -/
def Counter.Get (c : Counter) : Nat := c.n

/-- `Counter.Set` (src/counter.go:61-64): `atomic.StoreUint64(&c.n, n)` for a
`uint64` argument (hence the representative is reduced modulo `2 ^ 64`),
then the timestamp store. -/
def Counter.Set (_c : Counter) (n : Nat) (t : Int) : Counter :=
  ⟨n % U64, t⟩

/-- `Counter.getLastWriteTime` (src/counter.go:66-68):
`return atomic.LoadInt64(&c.lastWriteTime)`. -/
def Counter.getLastWriteTime (c : Counter) : Int := c.lastWriteTime

/-- `Counter.marshalTo` (src/counter.go:71-74): `v := c.Get()` followed by
`fmt.Fprintf(w, "%s %d\n", prefix, v)`; the `%d` verb renders a `uint64` as
its decimal digits. The produced text is returned as a `String`. -/
def Counter.marshalTo (c : Counter) (pfx : String) : String :=
  pfx ++ " " ++ Nat.repr c.Get ++ "\n"

/-- `Counter.metricType` (src/counter.go:76-78). -/
def Counter.metricType (_ : Counter) : String := "counter"

/-- A freshly constructed `Counter`: value zero, timestamp zero. -/
def Counter.init : Counter := ⟨0, 0⟩

/-- One call to a `Counter` method, with the clock reading the call observes
(unused by `inc` and `get`, which never read the clock). -/
inductive COp where
  | inc : COp
  | dec : Int → COp
  | add : Int → Int → COp
  | addInt64 : Int → Int → COp
  | set : Nat → Int → COp
  | get : COp
deriving DecidableEq

/-- Effect of one call on the shared state.  Each Go method mutates the
state through a single atomic instruction, so a whole call is one step of
the interleaving semantics; `Get` performs no store at all. -/
def Counter.step (c : Counter) : COp → Counter
  | .inc => c.Inc
  | .dec t => c.Dec t
  | .add n t => c.Add n t
  | .addInt64 n t => c.AddInt64 n t
  | .set n t => c.Set n t
  | .get => c

/-- Execution of a sequence of calls (one interleaving of the concurrent
callers). -/
def Counter.run (c : Counter) (l : List COp) : Counter := l.foldl Counter.step c

/-- The read-modify-write calls of claim C1: `Inc`, `Dec`, `Add`, `AddInt64`. -/
def COp.isRMW : COp → Bool
  | .inc => true
  | .dec _ => true
  | .add _ _ => true
  | .addInt64 _ _ => true
  | .set _ _ => false
  | .get => false

/-- The signed delta a read-modify-write call contributes: `Inc` adds 1,
`Dec` adds -1, `Add`/`AddInt64` add their argument. -/
def COp.signedDelta : COp → Int
  | .inc => 1
  | .dec _ => -1
  | .add n _ => n
  | .addInt64 n _ => n
  | .set _ _ => 0
  | .get => 0

/-- The calls that store `lastWriteTime`: `Dec`, `Add`, `AddInt64`, `Set`
(`Inc` and `Get` do not touch the timestamp). -/
def COp.isTimedMut : COp → Bool
  | .inc => false
  | .dec _ => true
  | .add _ _ => true
  | .addInt64 _ _ => true
  | .set _ _ => true
  | .get => false

/-- The clock reading a call observes (junk value 0 for `inc` and `get`,
which never read the clock). -/
def COp.time : COp → Int
  | .inc => 0
  | .dec t => t
  | .add _ t => t
  | .addInt64 _ t => t
  | .set _ t => t
  | .get => 0

/-- The value `getLastWriteTime()` returns after each successive call of the
sequence. -/
def Counter.lwtTrace (c : Counter) : List COp → List Int
  | [] => []
  | op :: l => (c.step op).getLastWriteTime :: (c.step op).lwtTrace l

/-- `l` is a non-decreasing sequence of integers. -/
def nondec : List Int → Bool
  | [] => true
  | [_] => true
  | a :: b :: l => decide (a ≤ b) && nondec (b :: l)

/-- State of `FloatCounter` (src/floatcounter.go:28-32): field `n : float64`
(modelled by `ℚ`, see the header) and field `lastWriteTime : int64`.  The
mutex has no residue in the sequential model: it makes every method body
one atomic step, which is how `FloatCounter.step` below applies them. -/
structure FloatCounter where
  n : ℚ
  lastWriteTime : Int

/-- `FloatCounter.Add` (src/floatcounter.go:35-40): under the lock,
`fc.n += n; fc.lastWriteTime = time.Now().Unix()`. -/
def FloatCounter.Add (fc : FloatCounter) (q : ℚ) (t : Int) : FloatCounter :=
  ⟨fc.n + q, t⟩

/-- `FloatCounter.Sub` (src/floatcounter.go:43-48): under the lock,
`fc.n -= n; fc.lastWriteTime = time.Now().Unix()`. -/
def FloatCounter.Sub (fc : FloatCounter) (q : ℚ) (t : Int) : FloatCounter :=
  ⟨fc.n - q, t⟩

/-- `FloatCounter.Get` (src/floatcounter.go:51-57): under the lock,
`n := fc.n; fc.lastWriteTime = time.Now().Unix()`, and `n` is returned:
the read also stores the timestamp.  Returns the loaded value together
with the post-state. -/
def FloatCounter.Get (fc : FloatCounter) (t : Int) : ℚ × FloatCounter :=
  (fc.n, ⟨fc.n, t⟩)

/-- `FloatCounter.Set` (src/floatcounter.go:60-65): under the lock,
`fc.n = n; fc.lastWriteTime = time.Now().Unix()`. -/
def FloatCounter.Set (_fc : FloatCounter) (q : ℚ) (t : Int) : FloatCounter :=
  ⟨q, t⟩

/-- `FloatCounter.getLastWriteTime` (src/floatcounter.go:73-75):
`return atomic.LoadInt64(&c.lastWriteTime)`. -/
def FloatCounter.getLastWriteTime (fc : FloatCounter) : Int := fc.lastWriteTime

/-- Decimal digits of the fractional part `num / den` (with `num < den`),
most significant first, stopping when the remainder is zero; `fuel` bounds
the number of digits emitted. -/
def fracDigits : Nat → Nat → Nat → List Char
  | 0, _, _ => []
  | fuel + 1, num, den =>
    if num = 0 then []
    else Nat.digitChar (num * 10 / den) :: fracDigits fuel (num * 10 % den) den

/-- Modelled from the Go standard library (external to this repository):
the rendering of a `float64` by the `fmt` verb `%g` — shortest decimal
digits, here on the subdomain of values whose `%g` form is a plain decimal
without an exponent (such as `3.5`): optional sign, integer part, and the
terminating fractional digits when nonzero. -/
def formatFloatG (q : ℚ) : String :=
  let sgn := if q < 0 then "-" else ""
  let na := q.num.natAbs
  let ip := na / q.den
  let fr := na % q.den
  sgn ++ Nat.repr ip ++
    (if fr = 0 then "" else "." ++ String.mk (fracDigits 64 fr q.den))

/-- `FloatCounter.marshalTo` (src/floatcounter.go:68-71): `v := fc.Get()`
(which stores the timestamp) followed by `fmt.Fprintf(w, "%s %g\n", prefix, v)`.
Returns the produced text together with the post-state. -/
def FloatCounter.marshalTo (fc : FloatCounter) (pfx : String) (t : Int) :
    String × FloatCounter :=
  let r := fc.Get t
  (pfx ++ " " ++ formatFloatG r.1 ++ "\n", r.2)

/-- `FloatCounter.metricType` (src/floatcounter.go:77-79). -/
def FloatCounter.metricType (_ : FloatCounter) : String := "counter"

/-- One call to a `FloatCounter` method, with the clock reading it observes
(every one of the four methods reads the clock). -/
inductive FOp where
  | add : ℚ → Int → FOp
  | sub : ℚ → Int → FOp
  | get : Int → FOp
  | set : ℚ → Int → FOp
deriving DecidableEq

/-- Effect of one call on the shared state: the lock serializes whole
method bodies, so a call is one step. -/
def FloatCounter.step (fc : FloatCounter) : FOp → FloatCounter
  | .add q t => fc.Add q t
  | .sub q t => fc.Sub q t
  | .get t => (fc.Get t).2
  | .set q t => fc.Set q t

/-- The clock reading a `FloatCounter` call observes. -/
def FOp.time : FOp → Int
  | .add _ t => t
  | .sub _ t => t
  | .get t => t
  | .set _ t => t

/-- The value `getLastWriteTime()` returns after each successive call of the
sequence. -/
def FloatCounter.lwtTrace (fc : FloatCounter) : List FOp → List Int
  | [] => []
  | op :: l => (fc.step op).getLastWriteTime :: (fc.step op).lwtTrace l

/-- The rational `7 / 2 = 3.5`, the exact value of the binary64 float `3.5`. -/
def ratThreePointFive : ℚ := ⟨7, 2, by decide, by decide⟩

/-! ## Helper lemmas -/

theorem Counter.step_lt (c : Counter) (op : COp) (h : c.n < U64) :
    (c.step op).n < U64 := by
  have hU : 0 < U64 := by norm_num [U64]
  cases op <;>
    first
      | exact Nat.mod_lt _ hU
      | exact h

theorem Counter.run_lt (l : List COp) (c : Counter) (h : c.n < U64) :
    (c.run l).n < U64 := by
  induction l generalizing c with
  | nil => exact h
  | cons op l ih =>
    show ((c.step op).run l).n < U64
    exact ih _ (c.step_lt op h)

theorem Counter.step_modeq (c : Counter) (op : COp) (h : op.isRMW = true) :
    Int.ModEq (U64 : Int) ((c.step op).n : Int) ((c.n : Int) + op.signedDelta) := by
  cases op with
  | inc =>
    simp only [Counter.step, Counter.Inc, COp.signedDelta, Int.ModEq, U64_eq]
    omega
  | dec t =>
    simp only [Counter.step, Counter.Dec, COp.signedDelta, Int.ModEq, U64_eq]
    omega
  | add n t =>
    simp only [Counter.step, Counter.Add, COp.signedDelta, uint64OfInt, Int.ModEq, U64_eq]
    omega
  | addInt64 n t =>
    simp only [Counter.step, Counter.AddInt64, COp.signedDelta, uint64OfInt, Int.ModEq, U64_eq]
    omega
  | set n t => simp [COp.isRMW] at h
  | get => simp [COp.isRMW] at h

theorem Counter.run_modeq (l : List COp) (c : Counter)
    (h : ∀ op ∈ l, op.isRMW = true) :
    Int.ModEq (U64 : Int) ((c.run l).n : Int)
      ((c.n : Int) + (l.map COp.signedDelta).sum) := by
  induction l generalizing c with
  | nil => simp [Counter.run, Int.ModEq]
  | cons op l ih =>
    have hop : op.isRMW = true := h op (List.mem_cons_self op l)
    have hl : ∀ o ∈ l, o.isRMW = true := fun o ho => h o (List.mem_cons_of_mem _ ho)
    have h1 := ih (c.step op) hl
    have h2 := (c.step_modeq op hop).add_right ((l.map COp.signedDelta).sum)
    have h4 := h1.trans h2
    rw [add_assoc] at h4
    show Int.ModEq (U64 : Int) (((c.step op).run l).n : Int) _
    rw [List.map_cons, List.sum_cons]
    exact h4

theorem Counter.lwtTrace_eq_map_time (l : List COp) (c : Counter)
    (h : ∀ op ∈ l, op.isTimedMut = true) :
    c.lwtTrace l = l.map COp.time := by
  induction l generalizing c with
  | nil => rfl
  | cons op l ih =>
    have hop := h op (List.mem_cons_self op l)
    have hl : ∀ o ∈ l, o.isTimedMut = true := fun o ho => h o (List.mem_cons_of_mem _ ho)
    have htime : (c.step op).getLastWriteTime = op.time := by
      cases op <;>
        simp_all [COp.isTimedMut, Counter.step, Counter.Dec, Counter.Add,
          Counter.AddInt64, Counter.Set, Counter.getLastWriteTime, COp.time]
    show (c.step op).getLastWriteTime :: (c.step op).lwtTrace l = op.time :: l.map COp.time
    rw [htime, ih _ hl]

theorem FloatCounter.lwtTrace_eq_map_fopTime (l : List FOp) (fc : FloatCounter) :
    fc.lwtTrace l = l.map FOp.time := by
  induction l generalizing fc with
  | nil => rfl
  | cons op l ih =>
    have htime : (fc.step op).getLastWriteTime = op.time := by
      cases op <;> rfl
    show (fc.step op).getLastWriteTime :: (fc.step op).lwtTrace l = op.time :: l.map FOp.time
    rw [htime, ih]

/-! ## Claim theorems -/

/-- C1: for every finite set of threads, each issuing a sequence of
`Inc`/`Dec`/`Add`/`AddInt64` calls, and every interleaving `l` of those
calls (any permutation of the concatenation of the per-thread sequences,
since each call's effect on the value is a single atomic add), the value
`Get` returns after running `l` from a fresh counter equals the sum of the
signed deltas (+1 per `Inc`, -1 per `Dec`, the argument per
`Add`/`AddInt64`) reduced modulo `2 ^ 64` — independent of the
interleaving. -/
theorem counter_concurrent_sum (threads : List (List COp)) (l : List COp)
    (hperm : l.Perm threads.flatten)
    (hops : ∀ op ∈ l, op.isRMW = true) :
    ((Counter.init.run l).Get : Int) =
      ((threads.flatten.map COp.signedDelta).sum) % 2 ^ 64 := by
  have hmod := Counter.run_modeq l Counter.init hops
  have hsum : (l.map COp.signedDelta).sum = (threads.flatten.map COp.signedDelta).sum :=
    (hperm.map COp.signedDelta).sum_eq
  have hlt : (Counter.init.run l).n < U64 :=
    Counter.run_lt l Counter.init (by norm_num [Counter.init, U64])
  have hM : (2 : Int) ^ 64 = 18446744073709551616 := by norm_num
  rw [hM, ← hsum]
  show (((Counter.mk 0 0).run l).n : Int) = _
  simp only [Int.ModEq, U64_eq, Counter.init] at hmod
  simp only [Counter.init, U64_eq] at hlt
  omega

/-- C1 witness: a concrete two-thread run. -/
theorem counter_concurrent_sum_witness :
    ([COp.add 3 7, COp.inc, COp.dec 5].all COp.isRMW = true)
    ∧ ((Counter.init.run [COp.add 3 7, COp.inc, COp.dec 5]).Get : Int) =
      ((([[COp.inc, COp.dec 5], [COp.add 3 7]] : List (List COp)).flatten.map
          COp.signedDelta).sum) % 2 ^ 64 :=
  ⟨by decide,
    counter_concurrent_sum [[COp.inc, COp.dec 5], [COp.add 3 7]]
      [COp.add 3 7, COp.inc, COp.dec 5] (by decide) (by decide)⟩

/-- C2: `Set(n)` immediately followed by `Get()` returns exactly `n`, for
the integer counter (any `n < 2 ^ 64`) and for the float counter (any
value). -/
theorem set_get_roundtrip (c : Counter) (fc : FloatCounter) (n : Nat) (q : ℚ)
    (t1 t2 t3 : Int) (h : n < 2 ^ 64) :
    (c.Set n t1).Get = n ∧ ((fc.Set q t2).Get t3).1 = q := by
  refine ⟨?_, rfl⟩
  show n % U64 = n
  exact Nat.mod_eq_of_lt (by simpa [U64] using h)

/-- C2 witness at `n = 5` and `q = 3.5`. -/
theorem set_get_roundtrip_witness :
    (5 < 2 ^ 64)
    ∧ (((Counter.mk 0 0).Set 5 3).Get = 5
       ∧ (((FloatCounter.mk 0 0).Set ratThreePointFive 4).Get 6).1 = ratThreePointFive) :=
  ⟨by decide, set_get_roundtrip ⟨0, 0⟩ ⟨0, 0⟩ 5 ratThreePointFive 3 4 6 (by decide)⟩

/-- C3: decrementing a counter holding 0 wraps to `2 ^ 64 - 1`; in general
`Dec` is the wrapping unsigned add of `2 ^ 64 - 1` (the two's-complement of
1), never an error, and it stores the clock reading into
`lastWriteTime`. -/
theorem dec_at_zero_wraps (c : Counter) (lw t : Int) :
    ((Counter.mk 0 lw).Dec t).n = 2 ^ 64 - 1
    ∧ ((Counter.mk 0 lw).Dec t).lastWriteTime = t
    ∧ (c.Dec t).n = (c.n + (2 ^ 64 - 1)) % 2 ^ 64
    ∧ (c.Dec t).lastWriteTime = t := by
  refine ⟨?_, rfl, rfl, rfl⟩
  show (0 + (U64 - 1)) % U64 = 2 ^ 64 - 1
  decide

/-- C4: `Get` on the integer counter returns the current value and leaves
the whole state (value and `lastWriteTime`) exactly as it was. -/
theorem get_pure (c : Counter) :
    c.Get = c.n ∧ c.step COp.get = c
    ∧ (c.step COp.get).n = c.n
    ∧ (c.step COp.get).lastWriteTime = c.lastWriteTime :=
  ⟨rfl, rfl, rfl, rfl⟩

/-- C5: `Inc` adds exactly 1 to the value modulo `2 ^ 64` and leaves
`lastWriteTime` unchanged, while `Dec`, `Add`, `AddInt64` and `Set` all
store the clock reading into `lastWriteTime`. -/
theorem inc_value_no_timestamp (c : Counter) (n : Int) (m : Nat) (t : Int) :
    c.Inc.n = (c.n + 1) % 2 ^ 64
    ∧ c.Inc.lastWriteTime = c.lastWriteTime
    ∧ (c.Dec t).lastWriteTime = t
    ∧ (c.Add n t).lastWriteTime = t
    ∧ (c.AddInt64 n t).lastWriteTime = t
    ∧ (c.Set m t).lastWriteTime = t :=
  ⟨rfl, rfl, rfl, rfl, rfl, rfl⟩

/-- C6: for every state and every signed 64-bit `n` (possibly negative),
`Add n` and `AddInt64 n` leave the value congruent to the old value plus
`n` modulo `2 ^ 64` (wrapping unsigned arithmetic), and both store the
clock reading into `lastWriteTime`. -/
theorem add_wrapping (c : Counter) (n : Int) (t : Int) :
    ((c.Add n t).n : Int) = ((c.n : Int) + n) % 2 ^ 64
    ∧ (c.Add n t).lastWriteTime = t
    ∧ ((c.AddInt64 n t).n : Int) = ((c.n : Int) + n) % 2 ^ 64
    ∧ (c.AddInt64 n t).lastWriteTime = t := by
  have key : (((c.n + uint64OfInt n) % U64 : Nat) : Int) = ((c.n : Int) + n) % 2 ^ 64 := by
    have hM : (2 : Int) ^ 64 = 18446744073709551616 := by norm_num
    simp only [uint64OfInt, U64_eq, hM]
    omega
  exact ⟨key, rfl, key, rfl⟩

/-- C7: `Get` on the float counter returns the current value, keeps the
value unchanged, but stores the clock reading into `lastWriteTime`; and
`marshalTo`, which calls `Get`, leaves the same post-state, so it too
updates `lastWriteTime`. -/
theorem float_get_updates_timestamp (fc : FloatCounter) (t : Int) (pfx : String) :
    (fc.Get t).1 = fc.n
    ∧ (fc.Get t).2.n = fc.n
    ∧ (fc.Get t).2.lastWriteTime = t
    ∧ (fc.marshalTo pfx t).2 = (fc.Get t).2
    ∧ (fc.marshalTo pfx t).2.lastWriteTime = t :=
  ⟨rfl, rfl, rfl, rfl, rfl⟩

/-- C8: `marshalTo` writes exactly one line `"<prefix> <value>\n"`: the
integer counter renders the value as decimal digits (value 42 with prefix
"foo" gives exactly "foo 42\n") and the float counter renders it in
general floating-point format (value 3.5 with prefix "bar" gives exactly
"bar 3.5\n"). -/
theorem marshalTo_format (pfx : String) (c : Counter) (fc : FloatCounter)
    (t lw lw2 : Int) :
    c.marshalTo pfx = pfx ++ " " ++ Nat.repr c.n ++ "\n"
    ∧ (fc.marshalTo pfx t).1 = pfx ++ " " ++ formatFloatG fc.n ++ "\n"
    ∧ (Counter.mk 42 lw).marshalTo "foo" = "foo 42\n"
    ∧ ((FloatCounter.mk ratThreePointFive lw2).marshalTo "bar" t).1 = "bar 3.5\n" := by
  refine ⟨rfl, rfl, ?_, ?_⟩
  · show "foo" ++ " " ++ Nat.repr 42 ++ "\n" = "foo 42\n"
    rfl
  · show "bar" ++ " " ++ formatFloatG ratThreePointFive ++ "\n" = "bar 3.5\n"
    rfl

/-- C9: across any single-thread sequence of timestamp-storing mutators
(`Dec`/`Add`/`AddInt64`/`Set` on the integer counter; `Add`/`Sub`/`Get`/`Set`
on the float counter), the successive values of `getLastWriteTime()` are
non-decreasing, provided the clock readings the calls observe are
non-decreasing. -/
theorem lastWriteTime_nondecreasing (c : Counter) (fc : FloatCounter)
    (lc : List COp) (lf : List FOp)
    (hmut : ∀ op ∈ lc, op.isTimedMut = true)
    (hc : nondec (lc.map COp.time) = true)
    (hf : nondec (lf.map FOp.time) = true) :
    nondec (c.lwtTrace lc) = true ∧ nondec (fc.lwtTrace lf) = true := by
  rw [Counter.lwtTrace_eq_map_time lc c hmut, FloatCounter.lwtTrace_eq_map_fopTime lf fc]
  exact ⟨hc, hf⟩

/-- C9 witness: concrete sequences with non-decreasing clock readings. -/
theorem lastWriteTime_nondecreasing_witness :
    ([COp.dec 3, COp.add 2 5, COp.set 9 5].all COp.isTimedMut = true)
    ∧ nondec ([COp.dec 3, COp.add 2 5, COp.set 9 5].map COp.time) = true
    ∧ nondec ([FOp.get 2, FOp.add 0 4, FOp.sub 1 4, FOp.set 2 7].map FOp.time) = true
    ∧ (nondec ((Counter.mk 0 0).lwtTrace [COp.dec 3, COp.add 2 5, COp.set 9 5]) = true
       ∧ nondec ((FloatCounter.mk 0 0).lwtTrace
            [FOp.get 2, FOp.add 0 4, FOp.sub 1 4, FOp.set 2 7]) = true) :=
  ⟨by decide, by decide, by decide,
    lastWriteTime_nondecreasing ⟨0, 0⟩ ⟨0, 0⟩
      [COp.dec 3, COp.add 2 5, COp.set 9 5]
      [FOp.get 2, FOp.add 0 4, FOp.sub 1 4, FOp.set 2 7]
      (by decide) (by decide) (by decide)⟩

/-- C10: on their common domain (signed 64-bit values, the platform `int`),
`Add` and `AddInt64` produce identical resulting states: same wrapping
unsigned conversion-and-add on the value, same timestamp store. -/
theorem add_addInt64_equiv (c : Counter) (n t : Int)
    (_h1 : -(2 ^ 63) ≤ n) (_h2 : n < 2 ^ 63) :
    c.Add n t = c.AddInt64 n t := rfl

/-- C10 witness at `n = -5`. -/
theorem add_addInt64_equiv_witness :
    (-(2 ^ 63) ≤ (-5 : Int)) ∧ ((-5 : Int) < 2 ^ 63)
    ∧ (Counter.mk 0 0).Add (-5) 4 = (Counter.mk 0 0).AddInt64 (-5) 4 :=
  ⟨by decide, by decide, add_addInt64_equiv ⟨0, 0⟩ (-5) 4 (by decide) (by decide)⟩

end Metrics
